import Mathlib

/-!
Verification development for the adversarial-attacks training repository
(`src/training/train.py`, `src/utils.py`).

The Python source is shallowly embedded: machine floats become rationals
(`ℚ`, with `WithTop ℚ` standing for the `np.inf` initialiser), Python
dicts become association lists (`List (String × _)`) preserving insertion
order, tensors become lists, and fallible code returns `Option`.
-/

namespace AdvTrain

/-- `EarlyStopper` state (train.py, `EarlyStopper.__init__`): patience,
`min_delta`, the non-improvement counter and the best validation loss
seen so far, initialised to `np.inf` (modelled as `⊤ : WithTop ℚ`). -/
structure EarlyStopper where
  patience : ℕ
  min_delta : ℚ
  counter : ℕ
  min_validation_loss : WithTop ℚ
deriving Repr, DecidableEq

/-- `EarlyStopper(patience, min_delta)`: fresh stopper with counter 0
and best loss `np.inf`. -/
def EarlyStopper.init (patience : ℕ) (min_delta : ℚ) : EarlyStopper :=
  ⟨patience, min_delta, 0, ⊤⟩

/-- `EarlyStopper(patience)`: the Python constructor fills the omitted
`min_delta` argument with its declared default `0.0` (train.py line 38). -/
def EarlyStopper.initDefault (patience : ℕ) : EarlyStopper :=
  EarlyStopper.init patience 0

/-- `EarlyStopper.early_stop` (train.py lines 45–53), one observation:
strict improvement resets `counter` and records the new best; a loss
exceeding `best + min_delta` increments `counter` and returns `True`
once `counter ≥ patience`; anything else leaves the state unchanged.
The Python method mutates `self`; here the new state is returned. -/
def EarlyStopper.early_stop (s : EarlyStopper) (validation_loss : ℚ) :
    Bool × EarlyStopper :=
  if (validation_loss : WithTop ℚ) < s.min_validation_loss then
    (false, { s with min_validation_loss := validation_loss, counter := 0 })
  else if s.min_validation_loss + (s.min_delta : WithTop ℚ) < validation_loss then
    let c := s.counter + 1
    (decide (s.patience ≤ c), { s with counter := c })
  else
    (false, s)

/-- Feed a list of validation losses one at a time to `early_stop`,
collecting the returned booleans and the final state. -/
def runStopper (s : EarlyStopper) : List ℚ → List Bool × EarlyStopper
  | [] => ([], s)
  | l :: ls =>
    let r := s.early_stop l
    let rest := runStopper r.2 ls
    (r.1 :: rest.1, rest.2)

/-! ### Specification-side description of a loss trace

These definitions restate, directly over the list of losses, the notions
the claim about `EarlyStopper` speaks of: the best loss seen so far, a
strict improvement, and an observation exceeding `best + min_delta`. -/

/-- Best-seen-so-far of a list of losses (`np.inf` if empty). -/
def runningMin (losses : List ℚ) : WithTop ℚ :=
  losses.foldl (fun m l => min m (l : WithTop ℚ)) ⊤

/-- Observation `i` strictly improves on the best loss seen before it. -/
def improvesAt (losses : List ℚ) (i : ℕ) : Prop :=
  ((losses.getD i 0 : ℚ) : WithTop ℚ) < runningMin (losses.take i)

/-- Observation `i` exceeds `best-seen-before + min_delta` (and is not a
strict improvement, which takes priority in the stopper). -/
def exceedsAt (D : ℚ) (losses : List ℚ) (i : ℕ) : Prop :=
  ¬ improvesAt losses i ∧
    runningMin (losses.take i) + (D : WithTop ℚ) < ((losses.getD i 0 : ℚ) : WithTop ℚ)

instance (losses : List ℚ) (i : ℕ) : Decidable (improvesAt losses i) := by
  unfold improvesAt; infer_instance

instance (D : ℚ) (losses : List ℚ) (i : ℕ) : Decidable (exceedsAt D losses i) := by
  unfold exceedsAt; infer_instance

/-- No strict improvement occurs strictly after observation `j`. -/
def noImproveAfter (losses : List ℚ) (j : ℕ) : Prop :=
  ∀ k < losses.length, j < k → ¬ improvesAt losses k

instance (losses : List ℚ) (j : ℕ) : Decidable (noImproveAfter losses j) := by
  unfold noImproveAfter; infer_instance

/-- The number of observations that exceed `best + min_delta` and come
after the last strict improvement of the trace. -/
def specCounter (D : ℚ) (losses : List ℚ) : ℕ :=
  (List.range losses.length).countP
    (fun j => decide (exceedsAt D losses j) && decide (noImproveAfter losses j))

theorem foldl_min_append (xs : List ℚ) (l : ℚ) :
    runningMin (xs ++ [l]) = min (runningMin xs) (l : WithTop ℚ) := by
  simp [runningMin, List.foldl_append]

theorem improvesAt_append (xs : List ℚ) (l : ℚ) (j : ℕ) (hj : j < xs.length) :
    improvesAt (xs ++ [l]) j ↔ improvesAt xs j := by
  unfold improvesAt
  rw [List.take_append_of_le_length hj.le, List.getD_append _ _ _ _ hj]

theorem exceedsAt_append (D : ℚ) (xs : List ℚ) (l : ℚ) (j : ℕ) (hj : j < xs.length) :
    exceedsAt D (xs ++ [l]) j ↔ exceedsAt D xs j := by
  unfold exceedsAt
  rw [improvesAt_append _ _ _ hj, List.take_append_of_le_length hj.le,
    List.getD_append _ _ _ _ hj]

theorem improvesAt_last (xs : List ℚ) (l : ℚ) :
    improvesAt (xs ++ [l]) xs.length ↔ (l : WithTop ℚ) < runningMin xs := by
  unfold improvesAt
  rw [List.take_append_of_le_length le_rfl, List.take_length,
    List.getD_append_right _ _ _ _ le_rfl]
  simp

theorem exceedsAt_last (D : ℚ) (xs : List ℚ) (l : ℚ) :
    exceedsAt D (xs ++ [l]) xs.length ↔
      (¬ (l : WithTop ℚ) < runningMin xs ∧
        runningMin xs + (D : WithTop ℚ) < (l : WithTop ℚ)) := by
  unfold exceedsAt
  rw [improvesAt_last, List.take_append_of_le_length le_rfl, List.take_length,
    List.getD_append_right _ _ _ _ le_rfl]
  simp

theorem noImproveAfter_last (xs : List ℚ) (l : ℚ) :
    noImproveAfter (xs ++ [l]) xs.length := by
  intro k hk hjk
  simp only [List.length_append, List.length_singleton] at hk
  omega

theorem noImproveAfter_append (xs : List ℚ) (l : ℚ) (j : ℕ) (hj : j < xs.length) :
    noImproveAfter (xs ++ [l]) j ↔
      (noImproveAfter xs j ∧ ¬ improvesAt (xs ++ [l]) xs.length) := by
  constructor
  · intro h
    refine ⟨fun k hk hjk => ?_, h xs.length (by simp) hj⟩
    have := h k (by simp; omega) hjk
    rwa [improvesAt_append _ _ _ hk] at this
  · rintro ⟨h1, h2⟩ k hk hjk
    simp only [List.length_append, List.length_singleton] at hk
    rcases Nat.lt_or_ge k xs.length with hk' | hk'
    · rw [improvesAt_append _ _ _ hk']
      exact h1 k hk' hjk
    · have : k = xs.length := by omega
      subst this
      exact h2

theorem specCounter_append (D : ℚ) (xs : List ℚ) (l : ℚ) :
    specCounter D (xs ++ [l]) =
      if (l : WithTop ℚ) < runningMin xs then 0
      else if runningMin xs + (D : WithTop ℚ) < (l : WithTop ℚ) then
        specCounter D xs + 1
      else specCounter D xs := by
  unfold specCounter
  rw [List.length_append, List.length_singleton, List.range_succ, List.countP_append]
  by_cases hres : (l : WithTop ℚ) < runningMin xs
  · rw [if_pos hres]
    have himp : improvesAt (xs ++ [l]) xs.length := (improvesAt_last xs l).2 hres
    have h1 : (List.range xs.length).countP
        (fun j => decide (exceedsAt D (xs ++ [l]) j) &&
          decide (noImproveAfter (xs ++ [l]) j)) = 0 := by
      rw [List.countP_eq_zero]
      intro j hj
      have hj' := List.mem_range.1 hj
      simp only [Bool.and_eq_true, decide_eq_true_eq, not_and]
      intro _ hno
      exact absurd himp (hno xs.length (by simp) hj')
    have h2 : List.countP
        (fun j => decide (exceedsAt D (xs ++ [l]) j) &&
          decide (noImproveAfter (xs ++ [l]) j)) [xs.length] = 0 := by
      rw [List.countP_eq_zero]
      intro j hj
      simp only [List.mem_singleton] at hj
      subst hj
      simp only [Bool.and_eq_true, decide_eq_true_eq, not_and]
      intro hex _
      exact hex.1 himp
    omega
  · rw [if_neg hres]
    have himp : ¬ improvesAt (xs ++ [l]) xs.length := by
      rw [improvesAt_last]; exact hres
    have hpre : (List.range xs.length).countP
        (fun j => decide (exceedsAt D (xs ++ [l]) j) &&
          decide (noImproveAfter (xs ++ [l]) j)) =
        (List.range xs.length).countP
        (fun j => decide (exceedsAt D xs j) && decide (noImproveAfter xs j)) := by
      apply List.countP_congr
      intro j hj
      have hj' := List.mem_range.1 hj
      simp only [Bool.and_eq_true, decide_eq_true_eq]
      rw [exceedsAt_append _ _ _ _ hj', noImproveAfter_append _ _ _ hj']
      tauto
    rw [hpre]
    by_cases hexc : runningMin xs + (D : WithTop ℚ) < (l : WithTop ℚ)
    · rw [if_pos hexc]
      have : List.countP
          (fun j => decide (exceedsAt D (xs ++ [l]) j) &&
            decide (noImproveAfter (xs ++ [l]) j)) [xs.length] = 1 := by
        simp only [List.countP_singleton, Bool.and_eq_true, decide_eq_true_eq]
        rw [if_pos]
        exact ⟨(exceedsAt_last D xs l).2 ⟨hres, hexc⟩, noImproveAfter_last xs l⟩
      omega
    · rw [if_neg hexc]
      have : List.countP
          (fun j => decide (exceedsAt D (xs ++ [l]) j) &&
            decide (noImproveAfter (xs ++ [l]) j)) [xs.length] = 0 := by
        simp only [List.countP_singleton, Bool.and_eq_true, decide_eq_true_eq]
        rw [if_neg]
        rintro ⟨hex, -⟩
        exact hexc ((exceedsAt_last D xs l).1 hex).2
      omega

theorem runStopper_append (s : EarlyStopper) (xs ys : List ℚ) :
    runStopper s (xs ++ ys) =
      ((runStopper s xs).1 ++ (runStopper (runStopper s xs).2 ys).1,
        (runStopper (runStopper s xs).2 ys).2) := by
  induction xs generalizing s with
  | nil => simp [runStopper]
  | cons x xs ih => simp [runStopper, ih]

theorem runStopper_state (P : ℕ) (D : ℚ) (losses : List ℚ) :
    (runStopper (EarlyStopper.init P D) losses).2 =
      ⟨P, D, specCounter D losses, runningMin losses⟩ := by
  induction losses using List.reverseRecOn with
  | nil => simp [runStopper, EarlyStopper.init, specCounter, runningMin]
  | append_singleton xs l ih =>
    rw [runStopper_append, ih]
    simp only [runStopper]
    unfold EarlyStopper.early_stop
    rw [specCounter_append, foldl_min_append]
    simp only []
    split_ifs with h1 h2
    · simp [min_eq_right h1.le]
    · simp [min_eq_left (not_lt.1 h1)]
    · simp [min_eq_left (not_lt.1 h1)]

theorem runStopper_fst_length (s : EarlyStopper) (xs : List ℚ) :
    (runStopper s xs).1.length = xs.length := by
  induction xs generalizing s with
  | nil => rfl
  | cons x xs ih => simp [runStopper, ih]

theorem runStopper_getD (s : EarlyStopper) (xs : List ℚ) (i : ℕ) (hi : i < xs.length) :
    (runStopper s xs).1.getD i false =
      ((runStopper s (xs.take i)).2.early_stop (xs.getD i 0)).1 := by
  induction xs generalizing s i with
  | nil => simp at hi
  | cons x xs ih =>
    cases i with
    | zero => simp [runStopper]
    | succ i =>
      have hi' : i < xs.length := by simpa using hi
      simpa [runStopper] using ih (s.early_stop x).2 i hi'

theorem take_succ_getD (losses : List ℚ) (i : ℕ) (hi : i < losses.length) :
    losses.take (i + 1) = losses.take i ++ [losses.getD i 0] := by
  rw [List.take_succ, List.getElem?_eq_getElem hi, List.getD_eq_getElem _ _ hi]
  rfl

theorem early_stop_char (P : ℕ) (D : ℚ) (losses : List ℚ) (i : ℕ)
    (hi : i < losses.length) :
    ((runStopper (EarlyStopper.init P D) losses).1.getD i false = true ↔
      (exceedsAt D losses i ∧ P ≤ specCounter D (losses.take (i + 1)))) := by
  rw [runStopper_getD _ _ _ hi, runStopper_state, take_succ_getD _ _ hi,
    specCounter_append]
  unfold EarlyStopper.early_stop exceedsAt improvesAt
  simp only []
  split_ifs with h1 h2
  · simp only [Bool.false_eq_true, false_iff]
    rintro ⟨⟨hni, -⟩, -⟩
    exact hni h1
  · rw [decide_eq_true_iff]
    exact ⟨fun hP => ⟨⟨h1, h2⟩, hP⟩, fun h => h.2⟩
  · simp only [Bool.false_eq_true, false_iff]
    rintro ⟨⟨-, hex⟩, -⟩
    exact h2 hex

/-- Modelled from the claim's words (spec §8.1): the stop fires exactly on
the `P`-th *consecutive* observation whose loss exceeds best-so-far + `D`,
i.e. at index `i` the last `P` observations all exceed. -/
def consecutiveStopClaim (P : ℕ) (D : ℚ) (losses : List ℚ) (i : ℕ) : Prop :=
  1 ≤ P ∧ P ≤ i + 1 ∧ ∀ j, i + 1 - P ≤ j → j ≤ i → exceedsAt D losses j

/-- **C1 counterexample.** With patience 2, `min_delta` 0 and losses
`[1, 2, 1, 2]`, the fourth call to `early_stop` returns `True`, yet the
third observation (loss 1, equal to the best) did not exceed best + delta,
so no run of 2 consecutive exceeding observations ends there: the code
stops where the claim, as stated, says it must not. -/
theorem early_stop_consecutive_counterexample :
    (runStopper (EarlyStopper.init 2 0) [1, 2, 1, 2]).1.getD 3 false = true ∧
      ¬ consecutiveStopClaim 2 0 [1, 2, 1, 2] 3 := by
  constructor
  · norm_num [runStopper, EarlyStopper.early_stop, EarlyStopper.init]
  · rintro ⟨-, -, h⟩
    have h2 := h 2 (by norm_num) (by norm_num)
    have hmin : runningMin ([(1:ℚ), 2, 1, 2].take 2) = ((1:ℚ) : WithTop ℚ) := by
      decide
    have hx : ¬ exceedsAt 0 [1, 2, 1, 2] 2 := by
      rintro ⟨-, hlt⟩
      rw [hmin] at hlt
      simp only [show (([1, 2, 1, 2] : List ℚ).getD 2 0) = 1 by rfl] at hlt
      norm_cast at hlt
    exact hx h2

/-- **C1 (amended).** For every sequence of losses, `early_stop` returns
`True` exactly on the observations that exceed best-seen-so-far + `min_delta`
and at which the number of exceeding observations *since the last strict
improvement* (not necessarily consecutive: observations with loss in
`[best, best + min_delta]` neither reset nor advance the counter) reaches
patience; along the way the counter equals that count and the tracked best
equals the running minimum. -/
theorem early_stop_trigger_characterization (P : ℕ) (D : ℚ) (losses : List ℚ)
    (i : ℕ) (hi : i < losses.length) :
    ((runStopper (EarlyStopper.init P D) losses).1.getD i false = true ↔
      (exceedsAt D losses i ∧ P ≤ specCounter D (losses.take (i + 1)))) ∧
    (runStopper (EarlyStopper.init P D) losses).2.counter = specCounter D losses ∧
    (runStopper (EarlyStopper.init P D) losses).2.min_validation_loss =
      runningMin losses :=
  ⟨early_stop_char P D losses i hi, by rw [runStopper_state], by rw [runStopper_state]⟩

theorem early_stop_trigger_characterization_witness :
    1 < ([2, 3] : List ℚ).length ∧
    (((runStopper (EarlyStopper.init 1 0) [2, 3]).1.getD 1 false = true ↔
      (exceedsAt 0 [2, 3] 1 ∧ 1 ≤ specCounter 0 ([2, 3].take (1 + 1)))) ∧
    (runStopper (EarlyStopper.init 1 0) [2, 3]).2.counter = specCounter 0 [2, 3] ∧
    (runStopper (EarlyStopper.init 1 0) [2, 3]).2.min_validation_loss =
      runningMin [2, 3]) :=
  ⟨by norm_num, early_stop_trigger_characterization 1 0 [2, 3] 1 (by norm_num)⟩

/-! ### `Trainer.train_model` (train.py lines 192–248)

The epoch loop.  External collaborators (model forward/backward, optimizer,
lr scheduler, logging) have no bearing on control flow; the validation
metric dictionary produced at epoch `e` is abstracted as `test_metrics e`
(an opaque value of type `μ`) and `lossOf` reads its `"loss"` entry, the
only field the loop inspects. -/

/-- Result of `train_model`: the metric dictionary of the last completed
epoch (`none` when the loop body never ran, in which case the Python
`return test_metrics_epoch` raises `UnboundLocalError`), and how many
epochs actually ran. -/
structure TrainOutcome (μ : Type) where
  last_test_metrics : Option μ
  epochs_run : ℕ
deriving Repr, DecidableEq

/-- The guard `if self.early_stop_patience and self.early_stop_patience !=
"None"` (train.py lines 201–202, 244): a stopper exists only for a present,
non-zero patience, and is built as `EarlyStopper(self.early_stop_patience)`,
i.e. with the default `min_delta = 0.0`. -/
def train_model_stopper (early_stop_patience : Option ℕ) : Option EarlyStopper :=
  match early_stop_patience with
  | some p => if p = 0 then none else some (EarlyStopper.initDefault p)
  | none => none

/-- The `for epoch in range(self.n_epochs)` loop of `train_model`: run the
train and validation steps, then (if early stopping is configured) observe
the validation loss and break immediately when it signals stop. -/
def trainLoop {μ : Type} (lossOf : μ → ℚ) (test_metrics : ℕ → μ) :
    List ℕ → Option EarlyStopper → Option μ → TrainOutcome μ
  | [], _, last => ⟨last, 0⟩
  | e :: rest, stopper, _ =>
    let m := test_metrics e
    match stopper with
    | none =>
      let out := trainLoop lossOf test_metrics rest none (some m)
      ⟨out.last_test_metrics, out.epochs_run + 1⟩
    | some st =>
      let r := st.early_stop (lossOf m)
      if r.1 then ⟨some m, 1⟩
      else
        let out := trainLoop lossOf test_metrics rest (some r.2) (some m)
        ⟨out.last_test_metrics, out.epochs_run + 1⟩

/-- `Trainer.train_model`: builds the (optional) stopper, iterates the
epoch loop over `range(n_epochs)` and returns `test_metrics_epoch` of the
last completed epoch. -/
def train_model {μ : Type} (n_epochs : ℤ) (early_stop_patience : Option ℕ)
    (test_metrics : ℕ → μ) (lossOf : μ → ℚ) : TrainOutcome μ :=
  trainLoop lossOf test_metrics (List.range n_epochs.toNat)
    (train_model_stopper early_stop_patience) none

/-- **C2.** With `n_epochs = 10`, `early_stop_patience = 3` and validation
losses 1.0, 0.9, 0.95, 0.96, 0.97 on the first five epochs, `train_model`
breaks immediately after the fifth epoch (epoch index 4; no sixth epoch
runs) and returns that epoch's validation metric dictionary. -/
theorem train_model_early_stop_scenario {μ : Type} (test_metrics : ℕ → μ)
    (lossOf : μ → ℚ)
    (h0 : lossOf (test_metrics 0) = 1) (h1 : lossOf (test_metrics 1) = 9/10)
    (h2 : lossOf (test_metrics 2) = 19/20) (h3 : lossOf (test_metrics 3) = 24/25)
    (h4 : lossOf (test_metrics 4) = 97/100) :
    train_model 10 (some 3) test_metrics lossOf = ⟨some (test_metrics 4), 5⟩ := by
  have hr : List.range (10 : ℤ).toNat = [0, 1, 2, 3, 4, 5, 6, 7, 8, 9] := rfl
  rw [train_model, hr]
  norm_num [trainLoop, train_model_stopper, EarlyStopper.initDefault,
    EarlyStopper.init, EarlyStopper.early_stop, h0, h1, h2, h3, h4]

theorem train_model_early_stop_scenario_witness :
    ((fun i => ([1, 9/10, 19/20, 24/25, 97/100] : List ℚ).getD i 2) 0 = 1 ∧
      (fun i => ([1, 9/10, 19/20, 24/25, 97/100] : List ℚ).getD i 2) 1 = 9/10 ∧
      (fun i => ([1, 9/10, 19/20, 24/25, 97/100] : List ℚ).getD i 2) 2 = 19/20 ∧
      (fun i => ([1, 9/10, 19/20, 24/25, 97/100] : List ℚ).getD i 2) 3 = 24/25 ∧
      (fun i => ([1, 9/10, 19/20, 24/25, 97/100] : List ℚ).getD i 2) 4 = 97/100) ∧
    train_model 10 (some 3) (fun e : ℕ => e)
        (fun e => ([1, 9/10, 19/20, 24/25, 97/100] : List ℚ).getD e 2) =
      ⟨some 4, 5⟩ :=
  ⟨⟨rfl, rfl, rfl, rfl, rfl⟩,
    train_model_early_stop_scenario (fun e : ℕ => e)
      (fun e => ([1, 9/10, 19/20, 24/25, 97/100] : List ℚ).getD e 2)
      rfl rfl rfl rfl rfl⟩

theorem trainLoop_some {μ : Type} (lossOf : μ → ℚ) (test_metrics : ℕ → μ) :
    ∀ (epochs : List ℕ) (stopper : Option EarlyStopper) (m : μ),
      (trainLoop lossOf test_metrics epochs stopper (some m)).last_test_metrics.isSome := by
  intro epochs
  induction epochs with
  | nil => intro stopper m; rfl
  | cons e rest ih =>
    intro stopper m
    cases stopper with
    | none => simpa [trainLoop] using ih none (test_metrics e)
    | some st =>
      by_cases h : (st.early_stop (lossOf (test_metrics e))).1
      · simp [trainLoop, h]
      · simpa [trainLoop, h] using
          ih (some (st.early_stop (lossOf (test_metrics e))).2) (test_metrics e)

theorem trainLoop_cons_some {μ : Type} (lossOf : μ → ℚ) (test_metrics : ℕ → μ)
    (e : ℕ) (rest : List ℕ) (stopper : Option EarlyStopper) (last : Option μ) :
    (trainLoop lossOf test_metrics (e :: rest) stopper last).last_test_metrics.isSome := by
  cases stopper with
  | none => simpa [trainLoop] using trainLoop_some lossOf test_metrics rest none (test_metrics e)
  | some st =>
    by_cases h : (st.early_stop (lossOf (test_metrics e))).1
    · simp [trainLoop, h]
    · simpa [trainLoop, h] using
        trainLoop_some lossOf test_metrics rest
          (some (st.early_stop (lossOf (test_metrics e))).2) (test_metrics e)

/-- **C10.** `train_model` yields a last-epoch metric dictionary iff at
least one epoch runs: with `n_epochs ≤ 0` the loop body never executes,
`test_metrics_epoch` is never bound, and the trailing `return` fails
(modelled as `none`) rather than returning an empty dictionary. -/
theorem train_model_none_iff_nonpositive_epochs {μ : Type} (n : ℤ)
    (pat : Option ℕ) (test_metrics : ℕ → μ) (lossOf : μ → ℚ) :
    (train_model n pat test_metrics lossOf).last_test_metrics = none ↔ n ≤ 0 := by
  unfold train_model
  rcases le_or_lt n 0 with hn | hn
  · rw [Int.toNat_of_nonpos hn]
    simp [trainLoop, hn]
  · have hne : List.range n.toNat ≠ [] := by
      rw [ne_eq, List.range_eq_nil]
      omega
    obtain ⟨e, rest, hcons⟩ := List.exists_cons_of_ne_nil hne
    rw [hcons]
    have hsome := trainLoop_cons_some lossOf test_metrics e rest
      (train_model_stopper pat) none
    constructor
    · intro h
      rw [h] at hsome
      cases hsome
    · intro h
      omega

/-- **C9.** The stopper that `train_model` builds always has
`min_delta = 0`: the trainer passes only its patience
(`EarlyStopper(self.early_stop_patience)`), so any validation loss
strictly above the best seen so far increments the counter, however small
the excess. -/
theorem train_model_stopper_min_delta_zero :
    (∀ (pat : Option ℕ) (st : EarlyStopper),
        train_model_stopper pat = some st → st.min_delta = 0) ∧
    (∀ (s : EarlyStopper) (l : ℚ), s.min_delta = 0 →
        s.min_validation_loss < (l : WithTop ℚ) →
        (s.early_stop l).2.counter = s.counter + 1) := by
  constructor
  · intro pat st h
    cases pat with
    | none => simp [train_model_stopper] at h
    | some p =>
      by_cases hp : p = 0
      · simp [train_model_stopper, hp] at h
      · simp only [train_model_stopper, if_neg hp] at h
        injection h with h2
        rw [← h2]
        rfl
  · intro s l hD hlt
    have hnot : ¬ ((l : WithTop ℚ) < s.min_validation_loss) := lt_asymm hlt
    have hcond : s.min_validation_loss + (s.min_delta : WithTop ℚ) < (l : WithTop ℚ) := by
      rw [hD, WithTop.coe_zero, add_zero]
      exact hlt
    unfold EarlyStopper.early_stop
    rw [if_neg hnot, if_pos hcond]

theorem train_model_stopper_min_delta_zero_witness :
    (train_model_stopper (some 2) = some (EarlyStopper.initDefault 2) ∧
      (EarlyStopper.initDefault 2).min_delta = 0) ∧
    ((⟨2, 0, 0, ((1 : ℚ) : WithTop ℚ)⟩ : EarlyStopper).min_delta = 0 ∧
      (⟨2, 0, 0, ((1 : ℚ) : WithTop ℚ)⟩ : EarlyStopper).min_validation_loss <
        ((2 : ℚ) : WithTop ℚ) ∧
      ((⟨2, 0, 0, ((1 : ℚ) : WithTop ℚ)⟩ : EarlyStopper).early_stop 2).2.counter =
        (⟨2, 0, 0, ((1 : ℚ) : WithTop ℚ)⟩ : EarlyStopper).counter + 1) :=
  ⟨⟨rfl, train_model_stopper_min_delta_zero.1 (some 2) (EarlyStopper.initDefault 2) rfl⟩,
    ⟨rfl, by decide,
      train_model_stopper_min_delta_zero.2 ⟨2, 0, 0, ((1 : ℚ) : WithTop ℚ)⟩ 2 rfl
        (by decide)⟩⟩

/-! ### `DiscTrainer._generate_adversarial_data` (train.py lines 483–502) -/

/-- A loader's dataset as `DiscTrainer` reads it: the 2-D feature tensor
`X` (one row per sample) and the label vector `y`. -/
structure DiscDataset where
  X : List (List ℚ)
  y : List ℚ
deriving Repr, DecidableEq

/-- Shape of a 2-D tensor as its list of row lengths; two tensors have
equal `.shape` iff they have the same row count and the same row widths. -/
def tensorShape (X : List (List ℚ)) : List ℕ := X.map List.length

/-- `DiscTrainer._generate_adversarial_data`: `X_adv` stands for the
external attack's output `self.attack.apply_attack(loader).squeeze(-1)`.
The `assert X_orig.shape == X_adv.shape` aborts the run on mismatch
(modelled as `none`); otherwise the returned loader's dataset is
`concat([X_orig, X_adv])` with labels `concat([zeros_like(y), ones_like(y)])`
(shuffling happens only at iteration time, the stored order is as built). -/
def generate_adversarial_data (ds : DiscDataset) (X_adv : List (List ℚ)) :
    Option DiscDataset :=
  let X_orig := ds.X
  if tensorShape X_orig = tensorShape X_adv then
    let disc_labels_zeros := List.replicate ds.y.length (0 : ℚ)
    let disc_labels_ones := List.replicate ds.y.length (1 : ℚ)
    some ⟨X_orig ++ X_adv, disc_labels_zeros ++ disc_labels_ones⟩
  else
    none

/-- **C3.** On a loader with `n` samples whose attack output matches in
shape, `_generate_adversarial_data` builds a dataset of exactly `2n`
samples: the `n` original rows labelled 0 followed (before shuffling) by
the `n` perturbed rows labelled 1 — a 50/50 clean/perturbed label split. -/
theorem generate_adversarial_data_doubles (ds : DiscDataset)
    (X_adv : List (List ℚ)) (n : ℕ) (hX : ds.X.length = n) (hy : ds.y.length = n)
    (hshape : tensorShape ds.X = tensorShape X_adv) :
    ∃ d, generate_adversarial_data ds X_adv = some d ∧
      d.X = ds.X ++ X_adv ∧
      d.y = List.replicate n 0 ++ List.replicate n 1 ∧
      d.X.length = 2 * n ∧ d.y.length = 2 * n ∧
      d.y.count 0 = n ∧ d.y.count 1 = n := by
  have hadv : X_adv.length = n := by
    have := congrArg List.length hshape
    simpa [tensorShape, hX] using this.symm
  refine ⟨⟨ds.X ++ X_adv, List.replicate ds.y.length 0 ++ List.replicate ds.y.length 1⟩,
    ?_, rfl, by rw [hy], ?_, ?_, ?_, ?_⟩
  · rw [generate_adversarial_data, if_pos hshape]
  · simp [hX, hadv]
    omega
  · simp [hy]
    omega
  · simp [hy, List.count_append, List.count_replicate]
  · simp [hy, List.count_append, List.count_replicate]

theorem generate_adversarial_data_doubles_witness :
    ((⟨[[1], [2]], [0, 1]⟩ : DiscDataset).X.length = 2 ∧
      (⟨[[1], [2]], [0, 1]⟩ : DiscDataset).y.length = 2 ∧
      tensorShape (⟨[[1], [2]], [0, 1]⟩ : DiscDataset).X = tensorShape [[3], [4]]) ∧
    (∃ d, generate_adversarial_data ⟨[[1], [2]], [0, 1]⟩ [[3], [4]] = some d ∧
      d.X = (⟨[[1], [2]], [0, 1]⟩ : DiscDataset).X ++ [[3], [4]] ∧
      d.y = List.replicate 2 0 ++ List.replicate 2 1 ∧
      d.X.length = 2 * 2 ∧ d.y.length = 2 * 2 ∧
      d.y.count 0 = 2 ∧ d.y.count 1 = 2) :=
  ⟨⟨rfl, rfl, rfl⟩,
    generate_adversarial_data_doubles ⟨[[1], [2]], [0, 1]⟩ [[3], [4]] 2 rfl rfl rfl⟩

/-- **C4.** `_generate_adversarial_data` aborts (assertion failure, no
partial dataset) iff the attack output's shape differs from the original
feature tensor's shape; under matching shapes a loader is always built. -/
theorem generate_adversarial_data_fails_iff_shape_mismatch (ds : DiscDataset)
    (X_adv : List (List ℚ)) :
    (generate_adversarial_data ds X_adv = none ↔
      tensorShape ds.X ≠ tensorShape X_adv) ∧
    (tensorShape ds.X = tensorShape X_adv →
      ∃ d, generate_adversarial_data ds X_adv = some d) := by
  constructor
  · by_cases h : tensorShape ds.X = tensorShape X_adv
    · rw [generate_adversarial_data, if_pos h]
      simp [h]
    · rw [generate_adversarial_data, if_neg h]
      simp [h]
  · intro h
    exact ⟨_, by rw [generate_adversarial_data, if_pos h]⟩

theorem generate_adversarial_data_fails_iff_shape_mismatch_witness :
    ((generate_adversarial_data ⟨[[1]], [0]⟩ [[2, 3]] = none ↔
      tensorShape (⟨[[1]], [0]⟩ : DiscDataset).X ≠ tensorShape [[2, 3]]) ∧
    (tensorShape (⟨[[1]], [0]⟩ : DiscDataset).X = tensorShape [[2, 3]] →
      ∃ d, generate_adversarial_data ⟨[[1]], [0]⟩ [[2, 3]] = some d)) :=
  generate_adversarial_data_fails_iff_shape_mismatch ⟨[[1]], [0]⟩ [[2, 3]]

/-! ### `Trainer._train_step` (train.py lines 250–287)

Per batch: zero gradients, forward pass `model(x)`, loss via the
configured criterion, backward/optimizer step (weight mutation, invisible
to the reported numbers), accumulate the loss and the true/predicted
labels; finally `mean_loss = losses / len(loader)` where `len(loader)` is
the number of batches.  The model, criterion and prediction rule
(`argmax` for multiclass, `round` otherwise) are external collaborators,
abstracted as functions. -/

/-- The triple `_train_step` reports: mean loss over batches plus the
accumulated true/predicted label vectors used for the other metrics. -/
structure StepResult where
  mean_loss : ℚ
  y_all_true : List ℚ
  y_all_pred : List ℚ

/-- `Trainer._train_step` on a loader given as a list of
(features, labels) batches. -/
def train_step {ξ π : Type} (model : ξ → π) (criterion : π → List ℚ → ℚ)
    (pred : π → List ℚ) (loader : List (ξ × List ℚ)) : StepResult :=
  let losses := loader.foldl (fun acc b => acc + criterion (model b.1) b.2) 0
  let y_all_true := loader.foldl (fun acc b => acc ++ b.2) []
  let y_all_pred := loader.foldl (fun acc b => acc ++ pred (model b.1)) []
  ⟨losses / (loader.length : ℚ), y_all_true, y_all_pred⟩

/-- **C8.** For an epoch over a loader with `B ≥ 1` batches the reported
mean loss is the sum of the `B` per-batch losses divided by `B` — the
batch count, not the sample count. -/
theorem train_step_mean_loss_over_batches {ξ π : Type} (model : ξ → π)
    (criterion : π → List ℚ → ℚ) (pred : π → List ℚ)
    (loader : List (ξ × List ℚ)) (_hne : loader ≠ []) :
    (train_step model criterion pred loader).mean_loss =
      (loader.map (fun b => criterion (model b.1) b.2)).sum /
        (loader.length : ℚ) := by
  unfold train_step
  rw [List.sum_eq_foldl, List.foldl_map]

theorem train_step_mean_loss_over_batches_witness :
    ([((1 : ℕ), [(0 : ℚ)]), (2, [1])] ≠ ([] : List (ℕ × List ℚ))) ∧
    (train_step (fun x : ℕ => (x : ℚ)) (fun p ls => p + ls.sum) (fun p => [p])
        [((1 : ℕ), [(0 : ℚ)]), (2, [1])]).mean_loss =
      (([((1 : ℕ), [(0 : ℚ)]), (2, [1])]).map
          (fun b => (fun p ls => p + ls.sum) ((fun x : ℕ => (x : ℚ)) b.1) b.2)).sum /
        (([((1 : ℕ), [(0 : ℚ)]), (2, [1])] : List (ℕ × List ℚ)).length : ℚ) :=
  ⟨List.cons_ne_nil _ _,
    train_step_mean_loss_over_batches (fun x : ℕ => (x : ℚ))
      (fun p ls => p + ls.sum) (fun p => [p]) [((1 : ℕ), [(0 : ℚ)]), (2, [1])]
      (List.cons_ne_nil _ _)⟩

/-! ### Hyperparameter search utilities (`src/utils.py`)

The nested `DictConfig` search space becomes a tree: a dict containing the
key `optuna_type` is a leaf (`LeafSpec`, with its sampling fields), any
other dict is an internal node; resolved parameter dicts become
`ParamTree`s whose leaves are values-or-`None`.  Association lists keep
Python's insertion order; `dictInsert` is Python dict assignment
(overwrite in place, else append).  The optuna `trial` is an external
collaborator: `trial.suggest_*(**optuna_params)` receives the leaf's
declared fields plus `name`, abstracted as functions of the name and the
leaf. -/

/-- A search-space leaf: the dict's `optuna_type` tag plus the fields the
four kinds use (`value` for `const`; bounds and choices are only forwarded
to the external sampler). -/
structure LeafSpec (α : Type) where
  optunaType : String
  value : Option α
  low : Option α
  high : Option α
  choices : List α
deriving Repr, DecidableEq

/-- A `hyperparameters_vary` subtree: a dict with `optuna_type` is a
leaf, any other dict an internal node (spec §3 `SearchSpaceNode`). -/
inductive SpaceTree (α : Type) where
  | leaf (spec : LeafSpec α)
  | node (entries : List (String × SpaceTree α))
deriving Repr

/-- A resolved parameter dict: leaves hold a value or Python `None`. -/
inductive ParamTree (α : Type) where
  | value (v : Option α)
  | dict (entries : List (String × ParamTree α))
deriving Repr

/-- `collect_default_params` (utils.py lines 81–94): `const` leaves keep
`param_value['value']`, every other leaf becomes `None`, internal nodes
recurse. -/
def collect_default_params {α : Type} :
    List (String × SpaceTree α) → List (String × ParamTree α)
  | [] => []
  | (k, .leaf sp) :: rest =>
    (k, .value (if sp.optunaType = "const" then sp.value else none)) ::
      collect_default_params rest
  | (k, .node es) :: rest =>
    (k, .dict (collect_default_params es)) :: collect_default_params rest

/-- `update_one_best_param` (utils.py lines 61–71): walk the resolved
dict; recurse into sub-dicts, and overwrite any non-dict entry whose key
equals the best parameter's name. -/
def update_one_best_param {α : Type} (n : String) (v : α) :
    List (String × ParamTree α) → List (String × ParamTree α)
  | [] => []
  | (k, .dict d) :: rest =>
    (k, .dict (update_one_best_param n v d)) :: update_one_best_param n v rest
  | (k, .value x) :: rest =>
    (k, .value (if n = k then some v else x)) :: update_one_best_param n v rest

/-- `update_trainer_params` (utils.py lines 74–78): deep-copy the
defaults, then apply `update_one_best_param` for each best pair. -/
def update_trainer_params {α : Type} (best_params : List (String × α))
    (default_params : List (String × ParamTree α)) : List (String × ParamTree α) :=
  best_params.foldl (fun acc p => update_one_best_param p.1 p.2 acc) default_params

/-- The optuna trial sampler, an external collaborator: each suggestion
receives the parameter name and the leaf's declared fields. -/
structure Trial (α : Type) where
  suggest_int : String → LeafSpec α → α
  suggest_float : String → LeafSpec α → α
  suggest_categorical : String → LeafSpec α → α

/-- Python dict assignment `d[k] = v`: overwrite in place if the key
exists, otherwise append. -/
def dictInsert {β : Type} : List (String × β) → String → β → List (String × β)
  | [], k, v => [(k, v)]
  | (k0, v0) :: rest, k, v =>
    if k0 = k then (k0, v) :: rest else (k0, v0) :: dictInsert rest k v

/-- `get_optuna_param_for_type` (utils.py lines 42–59): dispatch on the
`optuna_type` tag; `int`/`float`/`choice` consult the trial sampler,
`const` takes the declared value, and an unknown tag stores nothing. -/
def get_optuna_param_for_type {α : Type} (param_name : String)
    (optuna_type : String) (optuna_params : LeafSpec α)
    (initial_model_parameters : List (String × ParamTree α)) (trial : Trial α) :
    List (String × ParamTree α) × Trial α :=
  if optuna_type = "int" then
    (dictInsert initial_model_parameters param_name
      (.value (some (trial.suggest_int param_name optuna_params))), trial)
  else if optuna_type = "float" then
    (dictInsert initial_model_parameters param_name
      (.value (some (trial.suggest_float param_name optuna_params))), trial)
  else if optuna_type = "choice" then
    (dictInsert initial_model_parameters param_name
      (.value (some (trial.suggest_categorical param_name optuna_params))), trial)
  else if optuna_type = "const" then
    (dictInsert initial_model_parameters param_name
      (.value optuna_params.value), trial)
  else
    (initial_model_parameters, trial)

/-- The recursive body of `get_optimization_dict` (utils.py lines
97–119), with the accumulated `initial_model_parameters` dict explicit. -/
def get_optimization_dict_go {α : Type} :
    List (String × SpaceTree α) → Trial α → List (String × ParamTree α) →
      List (String × ParamTree α) × Trial α
  | [], trial, acc => (acc, trial)
  | (k, .leaf sp) :: rest, trial, acc =>
    let r := get_optuna_param_for_type k sp.optunaType sp acc trial
    get_optimization_dict_go rest r.2 r.1
  | (k, .node es) :: rest, trial, acc =>
    let r := get_optimization_dict_go es trial []
    get_optimization_dict_go rest r.2 (dictInsert acc k (.dict r.1))

/-- `get_optimization_dict` (utils.py lines 97–119): resolve every leaf
against the trial, preserving the tree's nesting; the trial object is
threaded through and returned. -/
def get_optimization_dict {α : Type} (params_vary : List (String × SpaceTree α))
    (trial : Trial α) : List (String × ParamTree α) × Trial α :=
  get_optimization_dict_go params_vary trial []

/-- The bare nesting structure of a parameter tree: keys at every level,
leaves erased to `.value`. -/
inductive ShapeTree where
  | value
  | dict (entries : List (String × ShapeTree))
deriving Repr

/-- Nesting/keys of a search tree. -/
def spaceShapes {α : Type} : List (String × SpaceTree α) → List (String × ShapeTree)
  | [] => []
  | (k, .leaf _) :: rest => (k, .value) :: spaceShapes rest
  | (k, .node es) :: rest => (k, .dict (spaceShapes es)) :: spaceShapes rest

/-- Nesting/keys of a resolved parameter tree. -/
def paramShapes {α : Type} : List (String × ParamTree α) → List (String × ShapeTree)
  | [] => []
  | (k, .value _) :: rest => (k, .value) :: paramShapes rest
  | (k, .dict es) :: rest => (k, .dict (paramShapes es)) :: paramShapes rest

/-- All leaves of a search tree with their ancestor-key path and own
key. -/
def spaceLeaves {α : Type} :
    List (String × SpaceTree α) → List (List String × String × LeafSpec α)
  | [] => []
  | (k, .leaf sp) :: rest => ([], k, sp) :: spaceLeaves rest
  | (k, .node es) :: rest =>
    (spaceLeaves es).map (fun p => (k :: p.1, p.2)) ++ spaceLeaves rest

/-- All leaves of a parameter tree with their ancestor-key path and own
key. -/
def paramLeaves {α : Type} :
    List (String × ParamTree α) → List (List String × String × Option α)
  | [] => []
  | (k, .value x) :: rest => ([], k, x) :: paramLeaves rest
  | (k, .dict es) :: rest =>
    (paramLeaves es).map (fun p => (k :: p.1, p.2)) ++ paramLeaves rest

theorem collect_shapes {α : Type} (es : List (String × SpaceTree α)) :
    paramShapes (collect_default_params es) = spaceShapes es := by
  induction es using collect_default_params.induct with
  | case1 => simp [collect_default_params, paramShapes, spaceShapes]
  | case2 k sp rest ih => simp [collect_default_params, paramShapes, spaceShapes, ih]
  | case3 k es2 rest ih1 ih2 =>
    simp [collect_default_params, paramShapes, spaceShapes, ih1, ih2]

theorem collect_leaves {α : Type} (es : List (String × SpaceTree α)) :
    paramLeaves (collect_default_params es) =
      (spaceLeaves es).map (fun q =>
        (q.1, q.2.1, if q.2.2.optunaType = "const" then q.2.2.value else none)) := by
  induction es using collect_default_params.induct with
  | case1 => simp [collect_default_params, paramLeaves, spaceLeaves]
  | case2 k sp rest ih =>
    simp [collect_default_params, paramLeaves, spaceLeaves, ih]
  | case3 k es2 rest ih1 ih2 =>
    simp [collect_default_params, paramLeaves, spaceLeaves, ih1, ih2, List.map_map]

theorem update_one_shapes {α : Type} (n : String) (v : α)
    (es : List (String × ParamTree α)) :
    paramShapes (update_one_best_param n v es) = paramShapes es := by
  induction es using update_one_best_param.induct n v with
  | case1 => simp [update_one_best_param, paramShapes]
  | case2 k d rest ih1 ih2 =>
    simp [update_one_best_param, paramShapes, ih1, ih2]
  | case3 k x rest ih =>
    simp [update_one_best_param, paramShapes, ih]

theorem update_one_leaves {α : Type} (n : String) (v : α)
    (es : List (String × ParamTree α)) :
    paramLeaves (update_one_best_param n v es) =
      (paramLeaves es).map (fun q =>
        (q.1, q.2.1, if n = q.2.1 then some v else q.2.2)) := by
  induction es using update_one_best_param.induct n v with
  | case1 => simp [update_one_best_param, paramLeaves]
  | case2 k d rest ih1 ih2 =>
    simp [update_one_best_param, paramLeaves, ih1, ih2, List.map_map]
  | case3 k x rest ih =>
    simp [update_one_best_param, paramLeaves, ih]

/-- The key list of an association-list dict. -/
def keys {β : Type} (es : List (String × β)) : List String := es.map Prod.fst

theorem dictInsert_of_not_mem {β : Type} (es : List (String × β)) (k : String)
    (v : β) (h : k ∉ keys es) : dictInsert es k v = es ++ [(k, v)] := by
  induction es with
  | nil => rfl
  | cons e rest ih =>
    obtain ⟨k0, v0⟩ := e
    simp only [keys, List.map_cons, List.mem_cons, not_or] at h
    simp only [dictInsert, if_neg (fun hh : k0 = k => h.1 hh.symm), List.cons_append,
      List.cons.injEq, true_and]
    exact ih (by simpa [keys] using h.2)

theorem paramShapes_append {α : Type} (xs ys : List (String × ParamTree α)) :
    paramShapes (xs ++ ys) = paramShapes xs ++ paramShapes ys := by
  induction xs using paramShapes.induct with
  | case1 => simp [paramShapes]
  | case2 k x rest ih => simp [paramShapes, ih]
  | case3 k es rest ih1 ih2 => simp [paramShapes, ih1, ih2]

/-- Well-formed leaf: its `optuna_type` tag is one of the four dispatched
kinds, and a `const` leaf carries its `value` field. -/
def wellFormedLeaf {α : Type} (sp : LeafSpec α) : Prop :=
  sp.optunaType = "int" ∨ sp.optunaType = "float" ∨ sp.optunaType = "choice" ∨
    (sp.optunaType = "const" ∧ sp.value.isSome)

/-- Every leaf of the tree is well-formed. -/
def wellFormedTree {α : Type} : List (String × SpaceTree α) → Prop
  | [] => True
  | (_, .leaf sp) :: rest => wellFormedLeaf sp ∧ wellFormedTree rest
  | (_, .node es) :: rest => wellFormedTree es ∧ wellFormedTree rest

/-- Keys are pairwise distinct at every internal level below the root
(Python dicts cannot carry duplicate keys). -/
def nodupKeysTree {α : Type} : List (String × SpaceTree α) → Prop
  | [] => True
  | (_, .leaf _) :: rest => nodupKeysTree rest
  | (_, .node es) :: rest =>
    ((keys es).Nodup ∧ nodupKeysTree es) ∧ nodupKeysTree rest

theorem go_shapes {α : Type} (es : List (String × SpaceTree α)) :
    ∀ (trial : Trial α) (acc : List (String × ParamTree α)),
      wellFormedTree es → nodupKeysTree es → (keys es).Nodup →
      (∀ k2 ∈ keys es, k2 ∉ keys acc) →
      paramShapes (get_optimization_dict_go es trial acc).1 =
        paramShapes acc ++ spaceShapes es :=
  match es with
  | [] => by
    intro trial acc _ _ _ _
    simp [get_optimization_dict_go, spaceShapes]
  | (k, .leaf sp) :: rest => by
    intro trial acc hwf hnd hkey hdisj
    simp only [wellFormedTree] at hwf
    simp only [nodupKeysTree] at hnd
    have hk : k ∉ keys acc := hdisj k (by simp [keys])
    obtain ⟨w, hw⟩ : ∃ w,
        (get_optuna_param_for_type k sp.optunaType sp acc trial).1 =
          dictInsert acc k (.value w) := by
      rcases hwf.1 with h | h | h | ⟨h, -⟩
      · exact ⟨some (trial.suggest_int k sp),
          by simp [get_optuna_param_for_type, h]⟩
      · exact ⟨some (trial.suggest_float k sp),
          by simp [get_optuna_param_for_type, h]⟩
      · exact ⟨some (trial.suggest_categorical k sp),
          by simp [get_optuna_param_for_type, h]⟩
      · exact ⟨sp.value, by simp [get_optuna_param_for_type, h]⟩
    have hkc : (keys rest).Nodup ∧ k ∉ keys rest := by
      have h2 := hkey
      simp only [keys, List.map_cons, List.nodup_cons] at h2
      exact ⟨h2.2, h2.1⟩
    have hkeys : keys (get_optuna_param_for_type k sp.optunaType sp acc trial).1 =
        keys acc ++ [k] := by
      rw [hw, dictInsert_of_not_mem _ _ _ hk]
      simp [keys]
    have hdisj2 : ∀ k2 ∈ keys rest,
        k2 ∉ keys (get_optuna_param_for_type k sp.optunaType sp acc trial).1 := by
      intro k2 hk2
      rw [hkeys]
      simp only [List.mem_append, List.mem_singleton, not_or]
      refine ⟨hdisj k2 ?_, fun hh => hkc.2 (hh ▸ hk2)⟩
      simp only [keys, List.map_cons, List.mem_cons]
      right
      simpa [keys] using hk2
    have hrec := go_shapes rest
      (get_optuna_param_for_type k sp.optunaType sp acc trial).2
      (get_optuna_param_for_type k sp.optunaType sp acc trial).1
      hwf.2 hnd hkc.1 hdisj2
    simp only [get_optimization_dict_go]
    rw [hrec, hw, dictInsert_of_not_mem _ _ _ hk, paramShapes_append]
    simp [paramShapes, spaceShapes]
  | (k, .node es2) :: rest => by
    intro trial acc hwf hnd hkey hdisj
    simp only [wellFormedTree] at hwf
    simp only [nodupKeysTree] at hnd
    have hk : k ∉ keys acc := hdisj k (by simp [keys])
    have hsub := go_shapes es2 trial [] hwf.1 hnd.1.2 hnd.1.1 (by simp [keys])
    have hkc : (keys rest).Nodup ∧ k ∉ keys rest := by
      have h2 := hkey
      simp only [keys, List.map_cons, List.nodup_cons] at h2
      exact ⟨h2.2, h2.1⟩
    have hkeys : keys (dictInsert acc k
        (ParamTree.dict (get_optimization_dict_go es2 trial []).1)) =
        keys acc ++ [k] := by
      rw [dictInsert_of_not_mem _ _ _ hk]
      simp [keys]
    have hdisj2 : ∀ k2 ∈ keys rest, k2 ∉ keys (dictInsert acc k
        (ParamTree.dict (get_optimization_dict_go es2 trial []).1)) := by
      intro k2 hk2
      rw [hkeys]
      simp only [List.mem_append, List.mem_singleton, not_or]
      refine ⟨hdisj k2 ?_, fun hh => hkc.2 (hh ▸ hk2)⟩
      simp only [keys, List.map_cons, List.mem_cons]
      right
      simpa [keys] using hk2
    have hrec := go_shapes rest (get_optimization_dict_go es2 trial []).2
      (dictInsert acc k (ParamTree.dict (get_optimization_dict_go es2 trial []).1))
      hwf.2 hnd.2 hkc.1 hdisj2
    simp only [get_optimization_dict_go]
    rw [hrec, dictInsert_of_not_mem _ _ _ hk, paramShapes_append]
    simp only [paramShapes, spaceShapes, List.append_assoc, List.cons_append,
      List.nil_append]
    rw [hsub]
    simp [paramShapes]

/-- **C5.** Merging an empty best-parameter set onto the collected
defaults is the identity; the collected defaults mirror the search tree's
nesting, keep each `const` leaf's declared value and leave every non-const
leaf as `None`. -/
theorem collect_defaults_apply_empty_best_identity {α : Type}
    (es : List (String × SpaceTree α)) :
    update_trainer_params ([] : List (String × α)) (collect_default_params es) =
      collect_default_params es ∧
    paramShapes (collect_default_params es) = spaceShapes es ∧
    paramLeaves (collect_default_params es) =
      (spaceLeaves es).map (fun q =>
        (q.1, q.2.1, if q.2.2.optunaType = "const" then q.2.2.value else none)) :=
  ⟨rfl, collect_shapes es, collect_leaves es⟩

/-- **C6.** For a well-formed search tree (each leaf tagged `int`, `float`,
`choice` or `const` with its required fields; keys distinct per level, as
Python dicts guarantee) and any trial sampler, the resolved parameter tree
has exactly the input tree's nesting and keys. -/
theorem get_optimization_dict_preserves_shape {α : Type}
    (es : List (String × SpaceTree α)) (trial : Trial α)
    (hwf : wellFormedTree es) (hnd : nodupKeysTree es)
    (hkeys : (keys es).Nodup) :
    paramShapes (get_optimization_dict es trial).1 = spaceShapes es := by
  have h := go_shapes es trial [] hwf hnd hkeys (by simp [keys])
  simpa [get_optimization_dict, paramShapes] using h

theorem get_optimization_dict_preserves_shape_witness :
    (wellFormedTree
        [("lr", SpaceTree.leaf ⟨"float", none, some 1, some 10, []⟩),
         ("batch", SpaceTree.leaf ⟨"const", some (32 : ℤ), none, none, []⟩),
         ("model_params", SpaceTree.node
           [("hidden", SpaceTree.leaf ⟨"int", none, some 1, some 8, []⟩)])] ∧
      nodupKeysTree
        [("lr", SpaceTree.leaf ⟨"float", none, some 1, some 10, []⟩),
         ("batch", SpaceTree.leaf ⟨"const", some (32 : ℤ), none, none, []⟩),
         ("model_params", SpaceTree.node
           [("hidden", SpaceTree.leaf ⟨"int", none, some 1, some 8, []⟩)])] ∧
      (keys
        [("lr", SpaceTree.leaf ⟨"float", none, some 1, some 10, []⟩),
         ("batch", SpaceTree.leaf ⟨"const", some (32 : ℤ), none, none, []⟩),
         ("model_params", SpaceTree.node
           [("hidden", SpaceTree.leaf ⟨"int", none, some 1, some 8, []⟩)])]).Nodup) ∧
    paramShapes (get_optimization_dict
        [("lr", SpaceTree.leaf ⟨"float", none, some 1, some 10, []⟩),
         ("batch", SpaceTree.leaf ⟨"const", some (32 : ℤ), none, none, []⟩),
         ("model_params", SpaceTree.node
           [("hidden", SpaceTree.leaf ⟨"int", none, some 1, some 8, []⟩)])]
        ⟨fun _ _ => 3, fun _ _ => 3, fun _ _ => 3⟩).1 =
      spaceShapes
        [("lr", SpaceTree.leaf ⟨"float", none, some 1, some 10, []⟩),
         ("batch", SpaceTree.leaf ⟨"const", some (32 : ℤ), none, none, []⟩),
         ("model_params", SpaceTree.node
           [("hidden", SpaceTree.leaf ⟨"int", none, some 1, some 8, []⟩)])] :=
  ⟨⟨by simp [wellFormedTree, wellFormedLeaf],
    by simp [nodupKeysTree, keys],
    by simp [keys]⟩,
    get_optimization_dict_preserves_shape _ _
      (by simp [wellFormedTree, wellFormedLeaf])
      (by simp [nodupKeysTree, keys])
      (by simp [keys])⟩

/-- **C7.** `update_one_best_param` overwrites, at every depth, exactly
the leaves whose key equals the given name with the given value — all of
them when the name occurs at several depths — and leaves every other leaf
and the tree structure untouched. -/
theorem update_one_best_param_overwrites_all_matching {α : Type} (n : String)
    (v : α) (es : List (String × ParamTree α)) :
    paramShapes (update_one_best_param n v es) = paramShapes es ∧
    paramLeaves (update_one_best_param n v es) =
      (paramLeaves es).map (fun q =>
        (q.1, q.2.1, if n = q.2.1 then some v else q.2.2)) :=
  ⟨update_one_shapes n v es, update_one_leaves n v es⟩

end AdvTrain
